import Mathlib

/-!
Shallow embedding of the grundzeug hierarchical dependency-resolution engine
(`grundzeug/container/impl.py` and the built-in resolution plugins), together
with proofs about the resolution walk, registration, caching, the Bean-List
aggregation plugin, the Single-Value plugin, the ambiguous-resolution
(converter) domination elimination, and the configuration plugin's
missing-key reporting.

Modelling conventions:
* Containers are identified by natural numbers (`ContainerId`); the parent
  link, the per-plugin storages and the resolver cache of every container are
  modelled as fields of a single `ContainerState` record (Python dicts become
  functions into `Option`).
* Bean values are a small inductive `Val`; producer functions of Transient
  registrations are state-passing functions `World → Val × World` so that
  "the producer is invoked again" is observable.
* Python exceptions that can escape the modelled code (`KeyError` in the
  Bean-List reduce, `ContainerAlreadyHasRegistrationError`) are explicit
  `Err` results.
-/

namespace Grundzeug

abbrev ContainerId := Nat

/-- The producer world: external state threaded through producer functions so
that repeated invocations of a (possibly non-deterministic) factory are
distinguishable. -/
abbrev World := Nat

/-- Bean values. `listV` is the `BeanList` tuple produced by
`_MultiBeanResolver.get`; `injectorOf` is the `ContainerInjector` produced by
`ContainerSpecialResolutionPlugin`; `containerOf` is the container itself,
returned by the self-identity short-circuit of `try_resolve_bean`. -/
inductive Val : Type where
  | base (n : Nat)
  | listV (vs : List Val)
  | injectorOf (c : ContainerId)
  | containerOf (c : ContainerId)

/-- Bean contracts. `beanList t` stands for `BeanList[T]` (detected in the
source via `__origin__ == BeanList`); `injector` is the
`Injector` contract handled by `ContainerSpecialResolutionPlugin`;
`containerSelf` is the `Container` contract short-circuited at the top of
`try_resolve_bean`. -/
inductive Contract : Type where
  | simple (id : Nat)
  | beanList (inner : Nat)
  | injector
  | containerSelf
deriving DecidableEq

/-- `RegistrationKey`: (bean_contract, bean_name). -/
structure Key : Type where
  contract : Contract
  name : Option Nat
deriving DecidableEq

/-- Registration variants needed by the claims:
`inst` is `InstanceContainerRegistration` (a pre-built value),
`transientF` is `TransientFactoryContainerRegistration` (zero-argument
producer invoked afresh on every call, modelled state-passing). -/
inductive Registration : Type where
  | inst (v : Val)
  | transientF (f : World → Val × World)

/-- `ContainerRegistration.__call__`: an Instance registration returns its
stored value; a Transient registration runs its producer. -/
def Registration.call : Registration → ContainerId → World → Val × World
  | .inst v, _, w => (v, w)
  | .transientF f, _, w => f w

/-- Bean resolvers. `value` is `ValueBeanResolver`, `fromReg` is
`RegistrationBeanResolver` (holds the registration and the requesting
container), `multi` is `_MultiBeanResolver`. -/
inductive Resolver : Type where
  | value (v : Val) (cacheable : Bool)
  | fromReg (r : Registration) (c : ContainerId) (cacheable : Bool)
  | multi (rs : List Resolver)

mutual

/-- `BeanResolver.get`. `_MultiBeanResolver.get` evaluates its constituent
resolvers left to right and wraps the results in a `BeanList`. -/
def Resolver.get : Resolver → World → Val × World
  | .value v _, w => (v, w)
  | .fromReg r c _, w => r.call c w
  | .multi rs, w =>
    let p := Resolver.getList rs w
    (Val.listV p.1, p.2)

/-- Evaluate a list of resolvers left to right, threading the world. -/
def Resolver.getList : List Resolver → World → List Val × World
  | [], w => ([], w)
  | r :: rs, w =>
    let p := Resolver.get r w
    let q := Resolver.getList rs p.2
    (p.1 :: q.1, q.2)

end

mutual

/-- `BeanResolver.is_cacheable`; for `_MultiBeanResolver` it is the
conjunction over the constituent resolvers. -/
def Resolver.isCacheable : Resolver → Bool
  | .value _ c => c
  | .fromReg _ _ c => c
  | .multi rs => Resolver.allCacheable rs

/-- `all(x.is_cacheable for x in self.resolvers)`. -/
def Resolver.allCacheable : List Resolver → Bool
  | [] => true
  | r :: rs => r.isCacheable && Resolver.allCacheable rs

end

/-- Errors that can escape the modelled code: `keyError` is the Python
`KeyError` raised by `registry[key]` on a missing key; `alreadyRegistered` is
`ContainerAlreadyHasRegistrationError`. -/
inductive Err : Type where
  | keyError
  | alreadyRegistered
deriving DecidableEq

/-- The root-owned plugin list entries: the three default plugins installed by
the `Container` constructor. -/
inductive CorePlugin : Type where
  | beanList
  | singleValue
  | special
deriving DecidableEq

/-- The whole-hierarchy state: parent links, the Single-Value plugin's
per-container storage, the Bean-List plugin's per-container storage, the
per-container resolver cache, and the root-owned plugin list (shared by
reference across the hierarchy). -/
structure ContainerState : Type where
  parent : ContainerId → Option ContainerId
  svStorage : ContainerId → Key → Option Registration
  blStorage : ContainerId → Key → Option (List Registration)
  cache : ContainerId → Key → Option Resolver

  plugins : List CorePlugin

/-- Point update for a two-argument map (a per-container dict entry). -/
def update2 {α : Type} (f : ContainerId → Key → α) (c : ContainerId) (k : Key)
    (v : α) : ContainerId → Key → α :=
  fun c' k' => if c' = c ∧ k' = k then v else f c' k'

/-- `Container.__cache_delete`. -/
def cacheDelete (cs : ContainerState) (c : ContainerId) (k : Key) :
    ContainerState :=
  { cs with cache := update2 cs.cache c k none }

/-- `Container.__cache_put`. -/
def cachePut (cs : ContainerState) (c : ContainerId) (k : Key) (r : Resolver) :
    ContainerState :=
  { cs with cache := update2 cs.cache c k (some r) }

/-- `ContainerBeanListResolutionPlugin.applies_to`:
`getattr(bean_contract, "__origin__", None) == BeanList`. -/
def beanListAppliesTo : Contract → Bool
  | .beanList _ => true
  | _ => false

/-- `ContainerBeanListResolutionPlugin.register`: claims `BeanList[T]` keys,
appending the registration to that container's registration list for the key
(creating the list when absent). -/
def beanListRegister (k : Key) (reg : Registration) (c : ContainerId)
    (cs : ContainerState) : ContainerState × Except Err Bool :=
  if beanListAppliesTo k.contract then
    let lst := (cs.blStorage c k).getD []
    ({ cs with blStorage := update2 cs.blStorage c k (some (lst ++ [reg])) },
      .ok true)
  else
    (cs, .ok false)

/-- `ContainerSingleValueResolutionPlugin.register`: raises
`ContainerAlreadyHasRegistrationError` when the key is already present in this
container's storage, otherwise stores the registration and claims the key. -/
def singleValueRegister (k : Key) (reg : Registration) (c : ContainerId)
    (cs : ContainerState) : ContainerState × Except Err Bool :=
  match cs.svStorage c k with
  | some _ => (cs, .error .alreadyRegistered)
  | none =>
    ({ cs with svStorage := update2 cs.svStorage c k (some reg) }, .ok true)

/-- `ContainerSpecialResolutionPlugin.register`: never claims anything. -/
def specialRegister (_k : Key) (_reg : Registration) (_c : ContainerId)
    (cs : ContainerState) : ContainerState × Except Err Bool :=
  (cs, .ok false)

/-- Dispatch `plugin.register`. -/
def pluginRegister : CorePlugin → Key → Registration → ContainerId →
    ContainerState → ContainerState × Except Err Bool
  | .beanList => beanListRegister
  | .singleValue => singleValueRegister
  | .special => specialRegister

/-- The plugin loop of `Container._register`: try each plugin in order; the
first plugin whose `register` returns `True` causes the cache entry for the
key to be purged, and the loop stops.  A raised error propagates; if no
plugin claims the key the loop falls through and returns normally. -/
def registerGo (k : Key) (reg : Registration) (c : ContainerId) :
    List CorePlugin → ContainerState → ContainerState × Except Err Unit
  | [], s => (s, .ok ())
  | p :: ps, s =>
    match pluginRegister p k reg c s with
    | (s', .error e) => (s', .error e)
    | (s', .ok true) => (cacheDelete s' c k, .ok ())
    | (s', .ok false) => registerGo k reg c ps s'

/-- `Container._register`, iterating the root-owned plugin list. -/
def registerOn (cs : ContainerState) (c : ContainerId) (k : Key)
    (reg : Registration) : ContainerState × Except Err Unit :=
  registerGo k reg c cs.plugins cs

/-- A reduce-stage message: `ReturnMessage`, `ContinueMessage`,
`NotFoundMessage`, or a raised error propagating out of the plugin. -/
inductive Message (σ : Type) : Type where
  | ret (r : Resolver)
  | cont (s : σ)
  | notFound (s : σ)
  | err (e : Err)

/-- A postprocess-stage message: `ReturnMessage` or `NotFoundMessage` (the
state carried by the Python `NotFoundMessage` is discarded by the caller). -/
inductive PostMessage : Type where
  | ret (r : Resolver)
  | notFound

/-- The `ContainerResolutionPlugin` protocol as used by the resolution walk:
`create_initial_state`, `resolve_bean_reduce` and `resolve_bean_postprocess`.
`reduce` receives the key, this plugin's fold state, the requesting container
and the walked-to ancestor, and may read the (immutable-during-walk)
container state. -/
structure RPlugin (σ : Type) : Type where
  init : Key → ContainerId → σ
  reduce : Key → σ → ContainerId → ContainerId → ContainerState → Message σ
  post : Key → σ → ContainerId → ContainerState → PostMessage

/-- Per-plugin fold states of the three built-in plugins: `unitS` is the
`None` state of the Single-Value and Special plugins, `resolvers` is the
Bean-List plugin's accumulated resolver list. -/
inductive PState : Type where
  | unitS
  | resolvers (rs : List Resolver)

/-- Project the Bean-List fold state's resolver list. -/
def PState.getResolvers : PState → List Resolver
  | .resolvers rs => rs
  | .unitS => []

/-- `ContainerBeanListResolutionPlugin` as a walk plugin.  Note that the
source's `resolve_bean_reduce` evaluates `registrations = registry[key]`
*before* its `if key in registry:` membership test, so an ancestor level with
no registration list for the key raises `KeyError` (modelled as
`Message.err .keyError`). -/
def beanListPlugin : RPlugin PState where
  init := fun _ _ => .resolvers []
  reduce := fun k s req anc cs =>
    if beanListAppliesTo k.contract then
      match cs.blStorage anc k with
      | none => .err .keyError
      | some regs =>
        .cont (.resolvers (s.getResolvers ++
          regs.map (fun r => Resolver.fromReg r req true)))
    else
      .notFound s
  post := fun k s _ _ =>
    if beanListAppliesTo k.contract then
      .ret (.multi s.getResolvers)
    else
      .notFound

/-- `ContainerSingleValueResolutionPlugin` as a walk plugin: `Return` a
registration-backed resolver as soon as the walked-to ancestor's storage has
the key, otherwise `NotFound(None)`. -/
def singleValuePlugin : RPlugin PState where
  init := fun _ _ => .unitS
  reduce := fun k _ req anc cs =>
    match cs.svStorage anc k with
    | some reg => .ret (.fromReg reg req true)
    | none => .notFound .unitS
  post := fun _ _ _ _ => .notFound

/-- `ContainerSpecialResolutionPlugin` as a walk plugin: resolves the unnamed
`Injector` contract at the first walked level without any registration. -/
def specialPlugin : RPlugin PState where
  init := fun _ _ => .unitS
  reduce := fun k _ req _ _ =>
    if k.name = none ∧ k.contract = .injector then
      .ret (.value (.injectorOf req) true)
    else
      .notFound .unitS
  post := fun _ _ _ _ => .notFound

/-- The implementation backing each entry of the default plugin list. -/
def corePluginImpl : CorePlugin → RPlugin PState
  | .beanList => beanListPlugin
  | .singleValue => singleValuePlugin
  | .special => specialPlugin

/-- Result of processing one ancestor level of the walk: some plugin
`Return`ed a resolver, or the level finished and the walk advances with the
updated fold states, or a plugin raised. -/
inductive LevelResult (σ : Type) : Type where
  | found (r : Resolver)
  | next (states : List σ)
  | failed (e : Err)

/-- One ancestor level of the `try_resolve_bean` walk: iterate the plugins in
order against this ancestor.  `ReturnMessage` stops everything;
`NotFoundMessage` records the updated state and moves to the next plugin at
this level; `ContinueMessage` records the updated state and stops processing
further plugins at this level, leaving their states untouched. -/
def levelStep {σ : Type} (key : Key) (req anc : ContainerId)
    (cs : ContainerState) : List (RPlugin σ) → List σ → LevelResult σ
  | [], _ => .next []
  | _ :: _, [] => .next []
  | p :: ps, s :: ss =>
    match p.reduce key s req anc cs with
    | .ret r => .found r
    | .err e => .failed e
    | .cont s' => .next (s' :: ss)
    | .notFound s' =>
      match levelStep key req anc cs ps ss with
      | .found r => .found r
      | .failed e => .failed e
      | .next ss' => .next (s' :: ss')

/-- The `Return` path shared by the walk and the postprocess pass: cache the
resolver when it is cacheable, then return `resolver.get()`. -/
def finishWith (r : Resolver) (key : Key) (req : ContainerId)
    (cs : ContainerState) (w : World) :
    ContainerState × World × Except Err (Option Val) :=
  let cs' := if r.isCacheable then cachePut cs req key r else cs
  let p := r.get w
  (cs', p.2, .ok (some p.1))

/-- The postprocess pass: call `resolve_bean_postprocess` once per plugin in
order; the first `Return` short-circuits (with the same caching rule);
otherwise the resolution returns the `BEAN_NOT_FOUND` sentinel (`none`). -/
def postPhase {σ : Type} (key : Key) (req : ContainerId) (cs : ContainerState)
    (w : World) : List (RPlugin σ) → List σ →
    ContainerState × World × Except Err (Option Val)
  | [], _ => (cs, w, .ok none)
  | _ :: _, [] => (cs, w, .ok none)
  | p :: ps, s :: ss =>
    match p.post key s req cs with
    | .ret r => finishWith r key req cs w
    | .notFound => postPhase key req cs w ps ss

/-- The ancestor walk of `try_resolve_bean` over a precomputed ancestor
chain. -/
def walkChain {σ : Type} (plugins : List (RPlugin σ)) (key : Key)
    (req : ContainerId) (cs : ContainerState) (w : World) :
    List ContainerId → List σ →
    ContainerState × World × Except Err (Option Val)
  | [], states => postPhase key req cs w plugins states
  | anc :: rest, states =>
    match levelStep key req anc cs plugins states with
    | .found r => finishWith r key req cs w
    | .failed e => (cs, w, .error e)
    | .next states' => walkChain plugins key req cs w rest states'

/-- The ancestor chain visited by the walk: the requesting container itself,
then its parent, and so on (`fuel` bounds the depth; every theorem supplies
enough fuel for the chains it constrains). -/
def ancestorChain (parentF : ContainerId → Option ContainerId) :
    Nat → ContainerId → List ContainerId
  | 0, _ => []
  | fuel + 1, c =>
    c :: (match parentF c with
      | none => []
      | some p => ancestorChain parentF fuel p)

/-- `Container.try_resolve_bean`: the self-identity short-circuit, the cache
hit (`cached_resolver.get()`), and otherwise the per-plugin initial states,
the ancestor walk and the postprocess pass.  The result triple is (container
state, producer world, outcome); outcome `.ok none` is the `BEAN_NOT_FOUND`
sentinel. -/
def tryResolveBean (fuel : Nat) (cs : ContainerState) (w : World)
    (req : ContainerId) (k : Key) :
    ContainerState × World × Except Err (Option Val) :=
  if k.name = none ∧ k.contract = .containerSelf then
    (cs, w, .ok (some (.containerOf req)))
  else
    match cs.cache req k with
    | some r =>
      let p := r.get w
      (cs, p.2, .ok (some p.1))
    | none =>
      let plugins := cs.plugins.map corePluginImpl
      let states := plugins.map (fun p => p.init k req)
      walkChain plugins k req cs w (ancestorChain cs.parent fuel req) states

/-!
Ambiguous-resolution base / Converter plugin
(`ContainerAmbiguousResolutionPluginBase.resolve_bean_postprocess` and
`ContainerConverterResolutionPlugin.choose_best_candidate`).

A collected candidate is identified by its converter registration key, i.e.
the pair of declared input type (`generic_TFrom`) and declared output type
(`generic_TTo`); component types are type identifiers (`Nat`).  The
type-compatibility oracle `can_substitute` is an external collaborator and is
modelled as an opaque Boolean predicate parameter. -/

/-- A converter candidate key: declared input type and declared output
type. -/
structure Cand : Type where
  tfrom : Nat
  tto : Nat
deriving DecidableEq

/-- Default candidate used for out-of-range list indexing. -/
def defaultCand : Cand := ⟨0, 0⟩

/-- The domination test of `choose_best_candidate`: candidate `a` dominates
candidate `b` when `can_substitute(a's TFrom, b's TFrom)` and
`can_substitute(b's TTo, a's TTo)` (in the source: `arg1 = i's TFrom`,
`arg2 = j's TFrom`, `ret1 = i's TTo`, `ret2 = j's TTo`, and `j` is marked
dominated when `can_substitute(arg1, arg2) and can_substitute(ret2, ret1)`). -/
def dominates (canSub : Nat → Nat → Bool) (a b : Cand) : Bool :=
  canSub a.tfrom b.tfrom && canSub b.tto a.tto

/-- One iteration of the inner `for j` loop of `choose_best_candidate`:
skip `j = i` and already-dominated `j`, otherwise mark `j` dominated if
candidate `i` dominates candidate `j`. -/
def markInnerStep (canSub : Nat → Nat → Bool) (cands : List Cand) (i : Nat)
    (d : List Bool) (j : Nat) : List Bool :=
  if i = j then d
  else if d.getD j true then d
  else if dominates canSub (cands.getD i defaultCand)
      (cands.getD j defaultCand) then d.set j true
  else d

/-- The inner `for j` loop of `choose_best_candidate` for a fixed undominated
`i`. -/
def markInner (canSub : Nat → Nat → Bool) (cands : List Cand) (i : Nat)
    (dmn : List Bool) : List Bool :=
  (List.range cands.length).foldl (markInnerStep canSub cands i) dmn

/-- The outer `for i` loop body of `choose_best_candidate`: an
already-dominated candidate is skipped and marks nothing. -/
def markStep (canSub : Nat → Nat → Bool) (cands : List Cand)
    (dmn : List Bool) (i : Nat) : List Bool :=
  if dmn.getD i true then dmn else markInner canSub cands i dmn

/-- The full `is_dominated` marking of `choose_best_candidate`, starting from
`[False for _ in candidates]`. -/
def markAll (canSub : Nat → Nat → Bool) (cands : List Cand) : List Bool :=
  (List.range cands.length).foldl (markStep canSub cands)
    (List.replicate cands.length false)

/-- `result = [c for c, d in zip(candidates, is_dominated) if not d]`. -/
def codeSurvivors (canSub : Nat → Nat → Bool) (cands : List Cand) :
    List Cand :=
  ((cands.zip (markAll canSub cands)).filterMap
    (fun p => if p.2 then none else some p.1))

/-- `choose_best_candidate`: `None` on an empty survivor list, the single
survivor when unique, and a raised "Ambiguous resolution!" error
otherwise. -/
def chooseBestCandidate (canSub : Nat → Nat → Bool) (cands : List Cand) :
    Except Unit (Option Cand) :=
  match codeSurvivors canSub cands with
  | [] => .ok none
  | [c] => .ok (some c)
  | _ :: _ :: _ => .error ()

/-- `ContainerAmbiguousResolutionPluginBase.resolve_bean_postprocess`: with
zero collected candidates answer `NotFound` (`.ok none`); otherwise run
`choose_best_candidate` — `None` becomes `NotFound`, a candidate becomes a
`ReturnMessage` (`.ok (some c)`), and the ambiguous-resolution error
propagates. -/
def ambiguousPostprocess (canSub : Nat → Nat → Bool) (cands : List Cand) :
    Except Unit (Option Cand) :=
  if cands.length = 0 then .ok none
  else
    match chooseBestCandidate canSub cands with
    | .error e => .error e
    | .ok none => .ok none
    | .ok (some c) => .ok (some c)

/-- The spec's domination predicate, following the spec's words: candidate
`i` is dominated exactly when some other candidate `j` (`j ≠ i`) satisfies
`can_substitute(j's input, i's input)` and `can_substitute(i's output,
j's output)`. -/
def specDominatedB (canSub : Nat → Nat → Bool) (cands : List Cand)
    (i : Nat) : Bool :=
  (List.range cands.length).any
    (fun j => !(decide (j = i)) &&
      dominates canSub (cands.getD j defaultCand) (cands.getD i defaultCand))

/-- The survivors according to the spec's words: the candidates that are not
dominated by any other candidate. -/
def specSurvivors (canSub : Nat → Nat → Bool) (cands : List Cand) :
    List Cand :=
  ((List.range cands.length).filter
    (fun i => !specDominatedB canSub cands i)).map
    (fun i => cands.getD i defaultCand)

/-!
Configuration plugin (`ContainerConfigurationResolutionPlugin`): the
hierarchical key collection fold and the missing-key check of
`_assert_no_missing_configuration_keys`.

Configuration keys (full paths) are identifiers (`Nat`); a configuration
class is a list of configuration entries, each either a leaf configurable
field (full path plus optional declared default) or a nested configuration
class; a configuration provider is its `get_value` function. -/

/-- A field of a configuration class: a leaf configurable (full path and
optional default) or a nested configuration class. -/
inductive CEntry : Type where
  | leaf (path : Nat) (dflt : Option Nat)
  | nested (fields : List CEntry)

/-- `ConfigurationProvider.get_value` (a `MISSING` result is `none`). -/
abbrev Provider := Nat → Option Nat

mutual

/-- `get_paths_to_collect`: the full paths of all leaf configurables of the
class, including those of nested configuration classes. -/
def CEntry.paths : CEntry → Finset Nat
  | .leaf p _ => {p}
  | .nested fs => pathsOfFields fs

/-- Union of `CEntry.paths` over a field list. -/
def pathsOfFields : List CEntry → Finset Nat
  | [] => ∅
  | e :: es => e.paths ∪ pathsOfFields es

end

mutual

/-- `_get_paths_of_configurables_with_defaults`: the full paths of leaf
configurables that declare a default, including nested classes. -/
def CEntry.defaultPaths : CEntry → Finset Nat
  | .leaf p (some _) => {p}
  | .leaf _ none => ∅
  | .nested fs => defaultPathsOfFields fs

/-- Union of `CEntry.defaultPaths` over a field list. -/
def defaultPathsOfFields : List CEntry → Finset Nat
  | [] => ∅
  | e :: es => e.defaultPaths ∪ defaultPathsOfFields es

end

/-- The fold state `_ConfigurationValueCollectionState`: the still-needed
paths and the collected values. -/
structure CollState : Type where
  left : Finset Nat
  collected : Nat → Option Nat

/-- `resolve_bean_create_initial_state` for a configuration-class contract:
all paths still needed, nothing collected. -/
def configInitState (cls : List CEntry) : CollState :=
  { left := pathsOfFields cls, collected := fun _ => none }

/-- One provider query pass of `_collect_values_reduce`: every still-needed
path the provider can supply is removed from the needed set and stored. -/
def collectOne (pr : Provider) (st : CollState) : CollState :=
  let hits := st.left.filter (fun p => (pr p).isSome)
  { left := st.left \ hits,
    collected := fun p => if p ∈ hits then pr p else st.collected p }

/-- `_collect_values_reduce` at one ancestor level: skip when nothing is
needed, otherwise consult this level's providers most-recently-registered
first. -/
def collectLevel (provs : List Provider) (st : CollState) : CollState :=
  if st.left = ∅ then st
  else provs.reverse.foldl (fun s pr => collectOne pr s) st

/-- The collection fold over all ancestor levels, nearest first. -/
def collectAll (levels : List (List Provider)) (st : CollState) : CollState :=
  levels.foldl (fun s provs => collectLevel provs s) st

/-- The Configuration plugin's part of the ancestor walk
(`resolve_bean_reduce` for a configuration-class contract): collect at each
level; when the needed set empties, `Return` immediately (`.inr`, carrying
the state at that moment); otherwise `Continue`; `.inl` is the state handed
to `resolve_bean_postprocess` after the walk exhausts all levels. -/
def configWalk : List (List Provider) → CollState → CollState ⊕ CollState
  | [], st => .inl st
  | provs :: rest, st =>
    let st' := collectLevel provs st
    if st'.left = ∅ then .inr st'
    else configWalk rest st'

/-- `resolve_bean_postprocess` for a configuration-class contract, reduced to
its error behavior: `_assert_no_missing_configuration_keys` raises
`MissingConfigurationKeysException` carrying
`values_left_to_collect.difference(paths-with-defaults)` when that set is
non-empty; otherwise the configuration object is constructed and returned. -/
def configPostprocess (cls : List CEntry) (st : CollState) :
    Except (Finset Nat) Unit :=
  let missing := st.left \ defaultPathsOfFields cls
  if missing = ∅ then .ok () else .error missing

/-- Whether any provider on any ancestor level supplies the path. -/
def suppliedB (levels : List (List Provider)) (p : Nat) : Bool :=
  levels.any (fun lvl => lvl.any (fun pr => (pr p).isSome))

/-!  Theorems  -/

/-- Unfolding lemma: a plugin that raises during `register` aborts the
plugin loop of `_register`. -/
theorem registerGo_cons_error (k : Key) (reg : Registration)
    (c : ContainerId) {p : CorePlugin} {ps : List CorePlugin}
    {s : ContainerState} {e : Err}
    (h : (pluginRegister p k reg c s).2 = .error e) :
    registerGo k reg c (p :: ps) s =
      ((pluginRegister p k reg c s).1, .error e) := by
  have hstep : registerGo k reg c (p :: ps) s =
      (match pluginRegister p k reg c s with
        | (s', .error e') => (s', .error e')
        | (s', .ok true) => (cacheDelete s' c k, .ok ())
        | (s', .ok false) => registerGo k reg c ps s') := rfl
  rcases hres : pluginRegister p k reg c s with ⟨s', e'⟩
  rw [hres] at h
  rcases e' with e' | b
  · simp only [Except.error.injEq] at h
    subst h
    rw [hstep, hres]
  · simp at h

/-- Unfolding lemma: a plugin that claims the key makes `_register` purge the
key's cache entry and stop. -/
theorem registerGo_cons_claimed (k : Key) (reg : Registration)
    (c : ContainerId) {p : CorePlugin} {ps : List CorePlugin}
    {s : ContainerState}
    (h : (pluginRegister p k reg c s).2 = .ok true) :
    registerGo k reg c (p :: ps) s =
      (cacheDelete (pluginRegister p k reg c s).1 c k, .ok ()) := by
  have hstep : registerGo k reg c (p :: ps) s =
      (match pluginRegister p k reg c s with
        | (s', .error e') => (s', .error e')
        | (s', .ok true) => (cacheDelete s' c k, .ok ())
        | (s', .ok false) => registerGo k reg c ps s') := rfl
  rcases hres : pluginRegister p k reg c s with ⟨s', e'⟩
  rw [hres] at h
  rcases e' with e' | b
  · simp at h
  · cases b
    · simp at h
    · rw [hstep, hres]

/-- Unfolding lemma: a plugin that declines the key passes control to the
next plugin in the list. -/
theorem registerGo_cons_declined (k : Key) (reg : Registration)
    (c : ContainerId) {p : CorePlugin} {ps : List CorePlugin}
    {s : ContainerState}
    (h : (pluginRegister p k reg c s).2 = .ok false) :
    registerGo k reg c (p :: ps) s =
      registerGo k reg c ps (pluginRegister p k reg c s).1 := by
  have hstep : registerGo k reg c (p :: ps) s =
      (match pluginRegister p k reg c s with
        | (s', .error e') => (s', .error e')
        | (s', .ok true) => (cacheDelete s' c k, .ok ())
        | (s', .ok false) => registerGo k reg c ps s') := rfl
  rcases hres : pluginRegister p k reg c s with ⟨s', e'⟩
  rw [hres] at h
  rcases e' with e' | b
  · simp at h
  · cases b
    · rw [hstep, hres]
    · simp at h

/-- `__cache_delete` removes exactly the entry it targets. -/
theorem cacheDelete_at (cs : ContainerState) (c : ContainerId) (k : Key) :
    (cacheDelete cs c k).cache c k = none := by
  simp [cacheDelete, update2]

/-- A plugin whose `register` returns `False` leaves the container state
untouched (true of all three built-in plugins). -/
theorem pluginRegister_unclaimed_id (p : CorePlugin) (k : Key)
    (reg : Registration) (c : ContainerId) (s : ContainerState)
    (h : (pluginRegister p k reg c s).2 = .ok false) :
    (pluginRegister p k reg c s).1 = s := by
  cases p with
  | beanList =>
    by_cases hb : beanListAppliesTo k.contract
    · simp [pluginRegister, beanListRegister, hb] at h
    · simp [pluginRegister, beanListRegister, hb]
  | singleValue =>
    rcases hsv : s.svStorage c k with _ | r
    · simp [pluginRegister, singleValueRegister, hsv] at h
    · simp [pluginRegister, singleValueRegister, hsv] at h
  | special => rfl

/-- No plugin's `register` ever touches any resolver cache. -/
theorem pluginRegister_cache_eq (p : CorePlugin) (k : Key)
    (reg : Registration) (c : ContainerId) (s : ContainerState) :
    ((pluginRegister p k reg c s).1).cache = s.cache := by
  cases p with
  | beanList =>
    by_cases hb : beanListAppliesTo k.contract
    · simp [pluginRegister, beanListRegister, hb]
    · simp [pluginRegister, beanListRegister, hb]
  | singleValue =>
    rcases hsv : s.svStorage c k with _ | r
    · simp [pluginRegister, singleValueRegister, hsv]
    · simp [pluginRegister, singleValueRegister, hsv]
  | special => rfl

/-- The plugin loop of `_register` falls through unchanged when every plugin
declines the registration. -/
theorem registerGo_all_unclaimed (k : Key) (reg : Registration)
    (c : ContainerId) :
    ∀ (l : List CorePlugin) (s : ContainerState),
      (∀ p ∈ l, (pluginRegister p k reg c s).2 = .ok false) →
      registerGo k reg c l s = (s, .ok ())
  | [], _, _ => rfl
  | p :: ps, s, h => by
    have hp := h p (List.mem_cons_self p ps)
    have hs := pluginRegister_unclaimed_id p k reg c s hp
    rw [registerGo_cons_declined k reg c hp, hs]
    exact registerGo_all_unclaimed k reg c ps s
      (fun q hq => h q (List.mem_cons_of_mem p hq))

/-- C10: a registration whose key is claimed by no active plugin (every
plugin's `register` returns `False`) makes `Container._register` return
normally with the whole container state unchanged: no error, no plugin
storage modified, and the resolver cache entry for the key (if present) not
purged — the registration is silently dropped. -/
theorem register_unclaimed_is_silently_dropped (cs : ContainerState)
    (c : ContainerId) (k : Key) (reg : Registration)
    (h : ∀ p ∈ cs.plugins, (pluginRegister p k reg c cs).2 = .ok false) :
    registerOn cs c k reg = (cs, .ok ()) :=
  registerGo_all_unclaimed k reg c cs.plugins cs h

/-- A container state with no registrations, no cache entries and a plugin
list in which no plugin claims plain contracts. -/
def csNoClaim : ContainerState where
  parent := fun _ => none
  svStorage := fun _ _ => none
  blStorage := fun _ _ => none
  cache := fun _ _ => none
  plugins := [.beanList, .special]

/-- Witness for C10 at a concrete unclaimed registration. -/
theorem register_unclaimed_is_silently_dropped_witness :
    registerOn csNoClaim 0 ⟨.simple 1, none⟩ (.inst (.base 5)) =
      (csNoClaim, .ok ()) := by
  refine register_unclaimed_is_silently_dropped csNoClaim 0 ⟨.simple 1, none⟩
    (.inst (.base 5)) ?_
  intro p hp
  simp only [csNoClaim, List.mem_cons, List.not_mem_nil, or_false] at hp
  rcases hp with rfl | rfl <;> rfl

/-- C8: with the default plugin list, registering a key that the Single-Value
plugin already stores for the same container raises
`ContainerAlreadyHasRegistrationError` at registration time and leaves the
container state — in particular the stored registration — unchanged. -/
theorem singleValue_duplicate_registration_errors (cs : ContainerState)
    (c : ContainerId) (k : Key) (reg r0 : Registration)
    (hpl : cs.plugins = [.beanList, .singleValue, .special])
    (hbl : beanListAppliesTo k.contract = false)
    (hdup : cs.svStorage c k = some r0) :
    registerOn cs c k reg = (cs, .error .alreadyRegistered) := by
  have h1 : pluginRegister .beanList k reg c cs = (cs, .ok false) := by
    simp [pluginRegister, beanListRegister, hbl]
  have h2 : pluginRegister .singleValue k reg c cs =
      (cs, .error .alreadyRegistered) := by
    simp [pluginRegister, singleValueRegister, hdup]
  have h1fst : (pluginRegister .beanList k reg c cs).1 = cs := by rw [h1]
  have h1snd : (pluginRegister .beanList k reg c cs).2 = .ok false := by
    rw [h1]
  have h2fst : (pluginRegister .singleValue k reg c cs).1 = cs := by rw [h2]
  have h2snd : (pluginRegister .singleValue k reg c cs).2 =
      .error .alreadyRegistered := by rw [h2]
  unfold registerOn
  rw [hpl, registerGo_cons_declined k reg c h1snd, h1fst,
    registerGo_cons_error k reg c h2snd, h2fst]

/-- A container state holding one Single-Value registration for the key
`(simple 0, unnamed)` on container `0`. -/
def csDup : ContainerState where
  parent := fun _ => none
  svStorage := fun c k =>
    if c = 0 ∧ k = ⟨.simple 0, none⟩ then some (.inst (.base 7)) else none
  blStorage := fun _ _ => none
  cache := fun _ _ => none
  plugins := [.beanList, .singleValue, .special]

/-- Witness for C8 at a concrete duplicate registration. -/
theorem singleValue_duplicate_registration_errors_witness :
    registerOn csDup 0 ⟨.simple 0, none⟩ (.inst (.base 8)) =
      (csDup, .error .alreadyRegistered) :=
  singleValue_duplicate_registration_errors csDup 0 ⟨.simple 0, none⟩
    (.inst (.base 8)) (.inst (.base 7)) rfl rfl rfl

/-- Off the registered point, `_register` leaves every cache entry alone. -/
theorem registerGo_cache_preserved (k : Key) (reg : Registration)
    (c : ContainerId) (c' : ContainerId) (k' : Key)
    (hne : ¬(c' = c ∧ k' = k)) :
    ∀ (l : List CorePlugin) (s : ContainerState),
      ((registerGo k reg c l s).1).cache c' k' = s.cache c' k'
  | [], _ => rfl
  | p :: ps, s => by
    have hcache := pluginRegister_cache_eq p k reg c s
    rcases hres : pluginRegister p k reg c s with ⟨s', e⟩
    have hfst : (pluginRegister p k reg c s).1 = s' := by rw [hres]
    rw [hres] at hcache
    have hcc : s'.cache c' k' = s.cache c' k' :=
      congrFun (congrFun hcache c') k'
    rcases e with e | b
    · rw [registerGo_cons_error k reg c (by rw [hres]), hfst]
      exact hcc
    · cases b
      · rw [registerGo_cons_declined k reg c (by rw [hres]), hfst,
          registerGo_cache_preserved k reg c c' k' hne ps s']
        exact hcc
      · rw [registerGo_cons_claimed k reg c (by rw [hres]), hfst]
        show ((cacheDelete s' c k).cache) c' k' = s.cache c' k'
        simp only [cacheDelete, update2]
        rw [if_neg hne]
        exact hcc

/-- C7: a cache entry `(C, K)` survives every registration call except one on
exactly `C` for exactly `K`; with the default plugin list, a registration
call on `C` for `K` that completes normally (i.e. a plugin claimed the key)
purges precisely that entry. -/
theorem register_cache_isolation (cs : ContainerState) (c : ContainerId)
    (k : Key) (reg : Registration) :
    (∀ (c' : ContainerId) (k' : Key), ¬(c' = c ∧ k' = k) →
      ((registerOn cs c k reg).1).cache c' k' = cs.cache c' k')
    ∧ (cs.plugins = [.beanList, .singleValue, .special] →
      (registerOn cs c k reg).2 = .ok () →
      ((registerOn cs c k reg).1).cache c k = none) := by
  constructor
  · intro c' k' hne
    exact registerGo_cache_preserved k reg c c' k' hne cs.plugins cs
  · intro hpl hok
    by_cases hb : beanListAppliesTo k.contract
    · have h1snd : (pluginRegister .beanList k reg c cs).2 = .ok true := by
        simp [pluginRegister, beanListRegister, hb]
      have hrO : registerOn cs c k reg =
          (cacheDelete (pluginRegister .beanList k reg c cs).1 c k, .ok ()) := by
        unfold registerOn
        rw [hpl, registerGo_cons_claimed k reg c h1snd]
      rw [hrO]
      exact cacheDelete_at _ c k
    · have h1 : pluginRegister .beanList k reg c cs = (cs, .ok false) := by
        simp [pluginRegister, beanListRegister, hb]
      have h1fst : (pluginRegister .beanList k reg c cs).1 = cs := by rw [h1]
      have h1snd : (pluginRegister .beanList k reg c cs).2 = .ok false := by
        rw [h1]
      rcases hsv : cs.svStorage c k with _ | r0
      · have h2snd : (pluginRegister .singleValue k reg c cs).2 = .ok true := by
          simp [pluginRegister, singleValueRegister, hsv]
        have hrO : registerOn cs c k reg =
            (cacheDelete (pluginRegister .singleValue k reg c cs).1 c k,
              .ok ()) := by
          unfold registerOn
          rw [hpl, registerGo_cons_declined k reg c h1snd, h1fst,
            registerGo_cons_claimed k reg c h2snd]
        rw [hrO]
        exact cacheDelete_at _ c k
      · have h2snd : (pluginRegister .singleValue k reg c cs).2 =
            .error .alreadyRegistered := by
          simp [pluginRegister, singleValueRegister, hsv]
        have hrO : (registerOn cs c k reg).2 = .error .alreadyRegistered := by
          unfold registerOn
          rw [hpl, registerGo_cons_declined k reg c h1snd, h1fst,
            registerGo_cons_error k reg c h2snd]
        rw [hrO] at hok
        simp at hok

/-- A container state with one cache entry at `(0, (simple 2, unnamed))` and
the default plugin list. -/
def csCached : ContainerState where
  parent := fun _ => none
  svStorage := fun _ _ => none
  blStorage := fun _ _ => none
  cache := fun c k =>
    if c = 0 ∧ k = ⟨.simple 2, none⟩ then some (.value (.base 3) true)
    else none
  plugins := [.beanList, .singleValue, .special]

/-- Witness for C7: registering a different key on the same container keeps
the cached entry, while registering the cached key itself purges it. -/
theorem register_cache_isolation_witness :
    ((registerOn csCached 0 ⟨.simple 9, none⟩ (.inst (.base 1))).1).cache 0
        ⟨.simple 2, none⟩ = csCached.cache 0 ⟨.simple 2, none⟩
    ∧ ((registerOn csCached 0 ⟨.simple 2, none⟩ (.inst (.base 1))).1).cache 0
        ⟨.simple 2, none⟩ = none := by
  constructor
  · exact (register_cache_isolation csCached 0 ⟨.simple 9, none⟩
      (.inst (.base 1))).1 0 ⟨.simple 2, none⟩ (by simp)
  · exact (register_cache_isolation csCached 0 ⟨.simple 2, none⟩
      (.inst (.base 1))).2 rfl rfl

/-- A fresh default container state: no registrations, no cache entries,
the default plugin list. -/
def csFresh : ContainerState where
  parent := fun _ => none
  svStorage := fun _ _ => none
  blStorage := fun _ _ => none
  cache := fun _ _ => none
  plugins := [.beanList, .singleValue, .special]

/-- C4 (failing input): the Bean-List plugin's `resolve_bean_reduce`
evaluates `registrations = registry[key]` before its `if key in registry:`
membership test, so resolving a `BeanList[T]` key from a container whose
storage has no entry for that key raises `KeyError` instead of appending
nothing and continuing: a fresh default container cannot resolve any
`BeanList[T]` contract at all. -/
theorem beanList_reduce_raises_on_missing_level :
    beanListPlugin.reduce ⟨.beanList 0, none⟩ (.resolvers []) 0 0 csFresh =
      .err .keyError
    ∧ (tryResolveBean 1 csFresh 0 0 ⟨.beanList 0, none⟩).2.2 =
      .error .keyError := by
  constructor
  · rfl
  · rfl

/-- C6: a cache hit makes `try_resolve_bean` return
`cached_resolver.get()`, re-invoking `get` on the current producer world
rather than replaying a stored value; in particular, when the cached
resolver wraps a Transient registration, each of two successive resolutions
runs the producer once more (the first on world `w`, the second on the world
the first call produced). -/
theorem cache_hit_reinvokes_resolver (fuel : Nat) (cs : ContainerState)
    (w : World) (req : ContainerId) (k : Key) (r : Resolver)
    (hk : ¬(k.name = none ∧ k.contract = .containerSelf))
    (hc : cs.cache req k = some r) :
    tryResolveBean fuel cs w req k = (cs, (r.get w).2, .ok (some (r.get w).1))
    ∧ ∀ (f : World → Val × World) (c : ContainerId) (b : Bool),
        r = .fromReg (.transientF f) c b →
        (tryResolveBean fuel cs w req k).2.2 = .ok (some (f w).1)
        ∧ (tryResolveBean fuel cs ((f w).2) req k).2.2 =
          .ok (some (f ((f w).2)).1) := by
  have hmain : ∀ w' : World, tryResolveBean fuel cs w' req k =
      (cs, (r.get w').2, .ok (some (r.get w').1)) := by
    intro w'
    unfold tryResolveBean
    rw [if_neg hk, hc]
  refine ⟨hmain w, ?_⟩
  rintro f c b rfl
  have hget : ∀ w' : World,
      (Resolver.fromReg (.transientF f) c b).get w' = f w' := fun _ => rfl
  constructor
  · rw [hmain w, hget w]
  · rw [hmain ((f w).2), hget ((f w).2)]

/-- A container state caching a Transient-backed resolver whose producer
returns the current counter value and increments it. -/
def csTransientCached : ContainerState where
  parent := fun _ => none
  svStorage := fun _ _ => none
  blStorage := fun _ _ => none
  cache := fun c k =>
    if c = 0 ∧ k = ⟨.simple 4, none⟩ then
      some (.fromReg (.transientF (fun n => (.base n, n + 1))) 0 true)
    else none
  plugins := [.beanList, .singleValue, .special]

/-- Witness for C6: two successive resolutions of the cached Transient key
return the two successive counter values — the producer ran both times. -/
theorem cache_hit_reinvokes_resolver_witness :
    (tryResolveBean 1 csTransientCached 0 0 ⟨.simple 4, none⟩).2.2 =
      .ok (some (.base 0))
    ∧ (tryResolveBean 1 csTransientCached 1 0 ⟨.simple 4, none⟩).2.2 =
      .ok (some (.base 1)) :=
  (cache_hit_reinvokes_resolver 1 csTransientCached 0 0 ⟨.simple 4, none⟩
    (.fromReg (.transientF (fun n => (.base n, n + 1))) 0 true)
    (by simp) rfl).2 (fun n => (.base n, n + 1)) 0 true rfl

/-- Cacheability of an aggregate splits over list concatenation. -/
theorem allCacheable_append (xs ys : List Resolver) :
    Resolver.allCacheable (xs ++ ys) =
      (Resolver.allCacheable xs && Resolver.allCacheable ys) := by
  induction xs with
  | nil => rfl
  | cons x xs ih =>
    simp [Resolver.allCacheable, ih, Bool.and_assoc]

/-- Registration-backed resolvers over Instance registrations are all
cacheable. -/
theorem allCacheable_inst (c : ContainerId) (vs : List Val) :
    Resolver.allCacheable
      (vs.map (fun v => Resolver.fromReg (Registration.inst v) c true)) =
      true := by
  induction vs with
  | nil => rfl
  | cons v vs ih => simp [Resolver.allCacheable, Resolver.isCacheable, ih]

/-- Evaluating a concatenation of resolvers threads the world left to
right. -/
theorem getList_append (xs ys : List Resolver) (w : World) :
    Resolver.getList (xs ++ ys) w =
      ((Resolver.getList xs w).1 ++
        (Resolver.getList ys (Resolver.getList xs w).2).1,
        (Resolver.getList ys (Resolver.getList xs w).2).2) := by
  induction xs generalizing w with
  | nil => rfl
  | cons x xs ih => simp [Resolver.getList, ih]

/-- Evaluating registration-backed resolvers over Instance registrations
yields exactly the registered values and leaves the producer world alone. -/
theorem getList_inst (vs : List Val) (c : ContainerId) (w : World) :
    Resolver.getList
      (vs.map (fun v => Resolver.fromReg (Registration.inst v) c true))
      w = (vs, w) := by
  induction vs with
  | nil => rfl
  | cons v vs ih =>
    simp [Resolver.getList, Resolver.get, Registration.call, ih]

/-- C2: with the default plugin list, a Single-Value key registered on both
an ancestor `A` and its descendant `D` resolves from `D` to the value
produced by `D`'s registration and from `A` to the value produced by `A`'s
registration: the Single-Value reduce returns at the first walked ancestor
whose storage holds the key, stopping the walk. -/
theorem singleValue_nearest_wins (cs : ContainerState) (w : World)
    (D A : ContainerId) (n : Nat) (nm : Option Nat) (rD rA : Registration)
    (f : Nat)
    (hpl : cs.plugins = [.beanList, .singleValue, .special])
    (hpD : cs.parent D = some A) (hpA : cs.parent A = none)
    (hcD : cs.cache D ⟨.simple n, nm⟩ = none)
    (hcA : cs.cache A ⟨.simple n, nm⟩ = none)
    (hsD : cs.svStorage D ⟨.simple n, nm⟩ = some rD)
    (hsA : cs.svStorage A ⟨.simple n, nm⟩ = some rA) :
    (tryResolveBean (f + 2) cs w D ⟨.simple n, nm⟩).2.2 =
      .ok (some (rD.call D w).1)
    ∧ (tryResolveBean (f + 2) cs w A ⟨.simple n, nm⟩).2.2 =
      .ok (some (rA.call A w).1) := by
  constructor
  · simp [tryResolveBean, hpl, hcD, corePluginImpl, ancestorChain, hpD,
      walkChain, levelStep, beanListPlugin, singleValuePlugin,
      beanListAppliesTo, hsD, finishWith, Resolver.isCacheable,
      Resolver.get]
  · simp [tryResolveBean, hpl, hcA, corePluginImpl, ancestorChain, hpA,
      walkChain, levelStep, beanListPlugin, singleValuePlugin,
      beanListAppliesTo, hsA, finishWith, Resolver.isCacheable,
      Resolver.get]

/-- A two-level container state for the Single-Value witness: container `1`
is the child of container `0`; the key `(simple 6, unnamed)` is registered
on both with distinct instance values. -/
def csTwoLevelSV : ContainerState where
  parent := fun c => if c = 1 then some 0 else none
  svStorage := fun c k =>
    if k = ⟨.simple 6, none⟩ then
      if c = 1 then some (.inst (.base 11))
      else if c = 0 then some (.inst (.base 22))
      else none
    else none
  blStorage := fun _ _ => none
  cache := fun _ _ => none
  plugins := [.beanList, .singleValue, .special]

/-- Witness for C2: the child resolves its own value, the parent its own. -/
theorem singleValue_nearest_wins_witness :
    (tryResolveBean 2 csTwoLevelSV 0 1 ⟨.simple 6, none⟩).2.2 =
      .ok (some (.base 11))
    ∧ (tryResolveBean 2 csTwoLevelSV 0 0 ⟨.simple 6, none⟩).2.2 =
      .ok (some (.base 22)) :=
  singleValue_nearest_wins csTwoLevelSV 0 1 0 6 none (.inst (.base 11))
    (.inst (.base 22)) 0 rfl rfl rfl rfl rfl rfl rfl

/-- C5: with the default plugin list, a `BeanList[T]` key whose instance
registrations live partly on the child and partly on the parent resolves
from the child to the list of all registered values, the child-registered
values ordered before the parent-registered ones. -/
theorem beanList_two_level_aggregation (cs : ContainerState) (w : World)
    (child par : ContainerId) (t : Nat) (nm : Option Nat)
    (vsC vsP : List Val) (f : Nat)
    (hpl : cs.plugins = [.beanList, .singleValue, .special])
    (hp1 : cs.parent child = some par) (hp2 : cs.parent par = none)
    (hcache : cs.cache child ⟨.beanList t, nm⟩ = none)
    (hblC : cs.blStorage child ⟨.beanList t, nm⟩ =
      some (vsC.map Registration.inst))
    (hblP : cs.blStorage par ⟨.beanList t, nm⟩ =
      some (vsP.map Registration.inst)) :
    (tryResolveBean (f + 2) cs w child ⟨.beanList t, nm⟩).2.2 =
      .ok (some (.listV (vsC ++ vsP))) := by
  simp [tryResolveBean, hpl, hcache, corePluginImpl, ancestorChain, hp1, hp2,
    walkChain, levelStep, beanListPlugin, beanListAppliesTo, hblC, hblP,
    postPhase, PState.getResolvers, finishWith, Resolver.isCacheable,
    Resolver.get, Function.comp_def, allCacheable_append, allCacheable_inst,
    getList_append, getList_inst]

/-- A two-level container state for the Bean-List witness: container `1` is
the child of container `0`; the key `(BeanList 3, unnamed)` has one instance
registration on the child and two on the parent. -/
def csTwoLevelBL : ContainerState where
  parent := fun c => if c = 1 then some 0 else none
  svStorage := fun _ _ => none
  blStorage := fun c k =>
    if k = ⟨.beanList 3, none⟩ then
      if c = 1 then some [.inst (.base 30)]
      else if c = 0 then some [.inst (.base 31), .inst (.base 32)]
      else none
    else none
  cache := fun _ _ => none
  plugins := [.beanList, .singleValue, .special]

/-- Witness for C5: resolving the aggregate from the child returns all three
values, child-registered first. -/
theorem beanList_two_level_aggregation_witness :
    (tryResolveBean 2 csTwoLevelBL 0 1 ⟨.beanList 3, none⟩).2.2 =
      .ok (some (.listV [.base 30, .base 31, .base 32])) :=
  beanList_two_level_aggregation csTwoLevelBL 0 1 0 3 none
    [.base 30] [.base 31, .base 32] 0 rfl rfl rfl rfl rfl rfl

/-- C1: at any ancestor level of the walk, when the plugins before position
`i` all answer `NotFound` (updating their own states) and the plugin at
position `i` answers `Continue s'`, the plugins after position `i` are not
called at this level — the level ends with their fold states exactly as they
were — and the walk advances to the next ancestor with those states. -/
theorem continue_stops_level {σ : Type} (key : Key) (req anc : ContainerId)
    (cs : ContainerState) (pre : List (RPlugin σ)) (p : RPlugin σ)
    (post : List (RPlugin σ)) (spre spre' : List σ) (s s' : σ)
    (spost : List σ)
    (hlen : pre.length = spre.length)
    (hpre : List.Forall₂
      (fun (ps : RPlugin σ × σ) s1 =>
        ps.1.reduce key ps.2 req anc cs = .notFound s1)
      (pre.zip spre) spre')
    (hc : p.reduce key s req anc cs = .cont s') :
    levelStep key req anc cs (pre ++ p :: post) (spre ++ s :: spost)
      = .next (spre' ++ s' :: spost)
    ∧ ∀ (w : World) (rest : List ContainerId),
      walkChain (pre ++ p :: post) key req cs w (anc :: rest)
        (spre ++ s :: spost)
      = walkChain (pre ++ p :: post) key req cs w rest
        (spre' ++ s' :: spost) := by
  have hlevel : levelStep key req anc cs (pre ++ p :: post)
      (spre ++ s :: spost) = .next (spre' ++ s' :: spost) := by
    induction pre generalizing spre spre' with
    | nil =>
      have hspre : spre = [] := by
        cases spre with
        | nil => rfl
        | cons a l => simp at hlen
      subst hspre
      cases hpre
      simp only [List.nil_append, levelStep, hc]
    | cons q pre₁ ih =>
      cases spre with
      | nil => simp at hlen
      | cons t spre₁ =>
        simp only [List.zip_cons_cons] at hpre
        cases hpre with
        | cons hq hpre₁ =>
          rename_i t' spre₁'
          have hq' : q.reduce key t req anc cs = Message.notFound t' := hq
          have hih := ih spre₁ spre₁' (by simpa using hlen) hpre₁
          simp only [List.cons_append, levelStep, hq', List.append_eq, hih]
  refine ⟨hlevel, fun w rest => ?_⟩
  have hstep : walkChain (pre ++ p :: post) key req cs w (anc :: rest)
      (spre ++ s :: spost) =
      (match levelStep key req anc cs (pre ++ p :: post)
          (spre ++ s :: spost) with
        | .found r => finishWith r key req cs w
        | .failed e => (cs, w, .error e)
        | .next states' =>
          walkChain (pre ++ p :: post) key req cs w rest states') := rfl
  rw [hstep, hlevel]

/-- A plugin (over `Nat` fold states) that always answers `NotFound`,
incrementing its state. -/
def witnessPluginNF : RPlugin Nat where
  init := fun _ _ => 0
  reduce := fun _ s _ _ _ => .notFound (s + 1)
  post := fun _ _ _ _ => .notFound

/-- A plugin (over `Nat` fold states) that always answers `Continue`,
adding ten to its state. -/
def witnessPluginCont : RPlugin Nat where
  init := fun _ _ => 0
  reduce := fun _ s _ _ _ => .cont (s + 10)
  post := fun _ _ _ _ => .notFound

/-- A plugin (over `Nat` fold states) that would `Return` if it were ever
consulted. -/
def witnessPluginRet : RPlugin Nat where
  init := fun _ _ => 0
  reduce := fun _ _ _ _ _ => .ret (.value (.base 99) true)
  post := fun _ _ _ _ => .notFound

/-- Witness for C1: with a `NotFound` plugin before it and a would-`Return`
plugin after it, a `Continue` plugin ends the level with the later plugin's
state untouched (and the later plugin not consulted — otherwise the level
would report `found`), and the walk advances to the next ancestor. -/
theorem continue_stops_level_witness :
    levelStep ⟨.simple 0, none⟩ 0 0 csFresh
      [witnessPluginNF, witnessPluginCont, witnessPluginRet] [5, 3, 7]
      = .next [6, 13, 7]
    ∧ walkChain [witnessPluginNF, witnessPluginCont, witnessPluginRet]
        ⟨.simple 0, none⟩ 0 csFresh 0 [0] [5, 3, 7]
      = walkChain [witnessPluginNF, witnessPluginCont, witnessPluginRet]
        ⟨.simple 0, none⟩ 0 csFresh 0 [] [6, 13, 7] := by
  have h := continue_stops_level ⟨.simple 0, none⟩ 0 0 csFresh
    [witnessPluginNF] witnessPluginCont [witnessPluginRet] [5] [6] 3 13 [7]
    rfl (List.Forall₂.cons rfl List.Forall₂.nil) rfl
  exact ⟨h.1, h.2 0 []⟩

/-- One provider pass removes exactly the paths it can supply. -/
theorem mem_collectOne_left (pr : Provider) (st : CollState) (q : Nat) :
    q ∈ (collectOne pr st).left ↔ q ∈ st.left ∧ pr q = none := by
  simp only [collectOne, Finset.mem_sdiff, Finset.mem_filter]
  constructor
  · rintro ⟨hq, hn⟩
    refine ⟨hq, ?_⟩
    rcases h : pr q with _ | v
    · rfl
    · exact absurd ⟨hq, by simp [h]⟩ hn
  · rintro ⟨hq, hn⟩
    exact ⟨hq, fun h => by simp [hn] at h⟩

/-- A provider-list fold removes exactly the paths some provider supplies. -/
theorem mem_foldl_collectOne_left (provs : List Provider) (st : CollState)
    (q : Nat) :
    q ∈ (provs.foldl (fun s pr => collectOne pr s) st).left ↔
      q ∈ st.left ∧ ∀ pr ∈ provs, pr q = none := by
  induction provs generalizing st with
  | nil => simp
  | cons pr provs ih =>
    rw [List.foldl_cons, ih, mem_collectOne_left]
    constructor
    · rintro ⟨⟨hq, h1⟩, h2⟩
      exact ⟨hq, fun p hp => by
        rcases List.mem_cons.mp hp with rfl | hp
        · exact h1
        · exact h2 p hp⟩
    · rintro ⟨hq, h⟩
      exact ⟨⟨hq, h pr (List.mem_cons_self pr provs)⟩,
        fun p hp => h p (List.mem_cons_of_mem pr hp)⟩

/-- `_collect_values_reduce` at one level: a path stays in the needed set
exactly when it was needed and no provider of this level supplies it. -/
theorem mem_collectLevel_left (provs : List Provider) (st : CollState)
    (q : Nat) :
    q ∈ (collectLevel provs st).left ↔
      q ∈ st.left ∧ ∀ pr ∈ provs, pr q = none := by
  unfold collectLevel
  by_cases h : st.left = ∅
  · rw [if_pos h, h]
    simp
  · rw [if_neg h, mem_foldl_collectOne_left]
    simp [List.mem_reverse]

/-- After folding all ancestor levels, a path is still needed exactly when it
started needed and no provider on any level supplies it. -/
theorem mem_collectAll_left (levels : List (List Provider)) (st : CollState)
    (q : Nat) :
    q ∈ (collectAll levels st).left ↔
      q ∈ st.left ∧ ∀ lvl ∈ levels, ∀ pr ∈ lvl, pr q = none := by
  induction levels generalizing st with
  | nil => simp [collectAll]
  | cons lvl rest ih =>
    show q ∈ (collectAll rest (collectLevel lvl st)).left ↔ _
    rw [ih, mem_collectLevel_left]
    constructor
    · rintro ⟨⟨hq, h1⟩, h2⟩
      exact ⟨hq, fun l hl => by
        rcases List.mem_cons.mp hl with rfl | hl
        · exact h1
        · exact h2 l hl⟩
    · rintro ⟨hq, h⟩
      exact ⟨⟨hq, h lvl (List.mem_cons_self lvl rest)⟩,
        fun l hl => h l (List.mem_cons_of_mem lvl hl)⟩

/-- As long as some needed path is supplied by no provider anywhere, the
Configuration reduce never empties its needed set, so it answers `Continue`
at every level and the walk reaches postprocess with the fully folded
state. -/
theorem configWalk_exhausts (levels : List (List Provider)) (st : CollState)
    (p0 : Nat) (hp0 : p0 ∈ st.left)
    (hnsup : ∀ lvl ∈ levels, ∀ pr ∈ lvl, pr p0 = none) :
    configWalk levels st = .inl (collectAll levels st) := by
  induction levels generalizing st with
  | nil => rfl
  | cons lvl rest ih =>
    have hmem : p0 ∈ (collectLevel lvl st).left := by
      rw [mem_collectLevel_left]
      exact ⟨hp0, hnsup lvl (List.mem_cons_self lvl rest)⟩
    have hne : (collectLevel lvl st).left ≠ ∅ :=
      fun h => by simp [h] at hmem
    show (if (collectLevel lvl st).left = ∅ then _ else _) = _
    rw [if_neg hne]
    exact ih (collectLevel lvl st) hmem
      (fun l hl => hnsup l (List.mem_cons_of_mem lvl hl))

/-- C9: when, after the walk exhausts all ancestor levels, at least one
configuration key of the class has neither a provider-supplied value nor a
declared default, the walk indeed reaches postprocess (every reduce answered
`Continue`) and postprocess raises the missing-configuration-keys error
carrying the complete set of all such keys, not only the first. -/
theorem config_missing_keys_complete (levels : List (List Provider))
    (cls : List CEntry) (p0 : Nat)
    (hp0 : p0 ∈ pathsOfFields cls)
    (hnsup : ∀ lvl ∈ levels, ∀ pr ∈ lvl, pr p0 = none)
    (hnodef : p0 ∉ defaultPathsOfFields cls) :
    configWalk levels (configInitState cls) =
      .inl (collectAll levels (configInitState cls))
    ∧ configPostprocess cls (collectAll levels (configInitState cls)) =
      .error ((pathsOfFields cls).filter
        (fun q => (∀ lvl ∈ levels, ∀ pr ∈ lvl, pr q = none) ∧
          q ∉ defaultPathsOfFields cls)) := by
  have hwalk := configWalk_exhausts levels (configInitState cls) p0 hp0 hnsup
  refine ⟨hwalk, ?_⟩
  have hset : (collectAll levels (configInitState cls)).left \
      defaultPathsOfFields cls =
      (pathsOfFields cls).filter
        (fun q => (∀ lvl ∈ levels, ∀ pr ∈ lvl, pr q = none) ∧
          q ∉ defaultPathsOfFields cls) := by
    ext q
    rw [Finset.mem_sdiff, mem_collectAll_left, Finset.mem_filter]
    show (q ∈ pathsOfFields cls ∧ _) ∧ _ ↔ _
    tauto
  have hne : (collectAll levels (configInitState cls)).left \
      defaultPathsOfFields cls ≠ ∅ := by
    rw [hset]
    intro h
    have : p0 ∈ (pathsOfFields cls).filter
        (fun q => (∀ lvl ∈ levels, ∀ pr ∈ lvl, pr q = none) ∧
          q ∉ defaultPathsOfFields cls) :=
      Finset.mem_filter.mpr ⟨hp0, hnsup, hnodef⟩
    simp [h] at this
  show (if _ = ∅ then _ else _) = _
  rw [if_neg hne, hset]

/-- A concrete configuration class: key `0` without default, key `1` with a
default; a single ancestor level whose single provider supplies only
key `1`. -/
def clsW : List CEntry := [.leaf 0 none, .leaf 1 (some 5)]

/-- The provider level list for the C9 witness. -/
def levelsW : List (List Provider) :=
  [[fun p => if p = 1 then some 9 else none]]

/-- Witness for C9: the walk exhausts the hierarchy and the error carries
exactly the key set `{0}`. -/
theorem config_missing_keys_complete_witness :
    configWalk levelsW (configInitState clsW) =
      .inl (collectAll levelsW (configInitState clsW))
    ∧ configPostprocess clsW (collectAll levelsW (configInitState clsW)) =
      .error ((pathsOfFields clsW).filter
        (fun q => (∀ lvl ∈ levelsW, ∀ pr ∈ lvl, pr q = none) ∧
          q ∉ defaultPathsOfFields clsW)) := by
  refine config_missing_keys_complete levelsW clsW 0 ?_ ?_ ?_
  · show (0 : Nat) ∈ pathsOfFields clsW
    rw [show pathsOfFields clsW =
      ({0} : Finset Nat) ∪ ({1} ∪ ∅) from rfl]
    simp
  · intro lvl hl pr hpr
    simp only [levelsW, List.mem_cons, List.not_mem_nil, or_false] at hl
    subst hl
    simp only [List.mem_cons, List.not_mem_nil, or_false] at hpr
    subst hpr
    rfl
  · show (0 : Nat) ∉ defaultPathsOfFields clsW
    rw [show defaultPathsOfFields clsW =
      (∅ : Finset Nat) ∪ ({1} ∪ ∅) from rfl]
    simp

/-- C3 (counterexample): with a type-compatibility oracle that lets every
type substitute every other, two distinct candidates each dominate the other
under the spec's domination definition — so per the claim zero candidates
survive and the result should be NotFound — yet the code's sequential
elimination (in which an already-dominated candidate no longer dominates)
lets the first candidate survive and returns it. -/
theorem ambiguous_domination_not_existential :
    (∀ i < 2, specDominatedB (fun _ _ => true) [⟨0, 0⟩, ⟨1, 1⟩] i = true)
    ∧ ambiguousPostprocess (fun _ _ => true) [⟨0, 0⟩, ⟨1, 1⟩] =
        .ok (some ⟨0, 0⟩) := by
  constructor
  · decide
  · rfl

/-- Reading a `set` cell at its own index. -/
theorem getD_set_self (l : List Bool) (j : Nat) :
    (l.set j true).getD j false = decide (j < l.length) := by
  induction l generalizing j with
  | nil => simp
  | cons a l ih =>
    cases j with
    | zero => simp
    | succ j => simpa using ih j

/-- Reading a `set` cell at a different index. -/
theorem getD_set_ne (l : List Bool) (b : Bool) {i j : Nat} (h : i ≠ j) :
    (l.set i b).getD j false = l.getD j false := by
  induction l generalizing i j with
  | nil => simp
  | cons a l ih =>
    cases i with
    | zero =>
      cases j with
      | zero => exact absurd rfl h
      | succ j => simp
    | succ i =>
      cases j with
      | zero => simp
      | succ j =>
        simpa using ih (fun hij => h (by rw [hij]))

/-- A cell that reads `false` under default `true` is an in-range `false`
cell. -/
theorem getD_true_false (d : List Bool) (j : Nat)
    (h : d.getD j true = false) :
    j < d.length ∧ d.getD j false = false := by
  by_cases hj : j < d.length
  · refine ⟨hj, ?_⟩
    rw [List.getD_eq_getElem d false hj]
    rw [List.getD_eq_getElem d true hj] at h
    exact h
  · rw [List.getD_eq_default d true (Nat.le_of_not_lt hj)] at h
    simp at h

/-- An in-range cell reads the same under either default. -/
theorem getD_eq_of_lt (d : List Bool) (j : Nat) (h : j < d.length) :
    d.getD j true = d.getD j false := by
  rw [List.getD_eq_getElem d false h, List.getD_eq_getElem d true h]

/-- `markInnerStep` preserves the marking array's length. -/
theorem markInnerStep_length (canSub : Nat → Nat → Bool) (cands : List Cand)
    (i : Nat) (d : List Bool) (j : Nat) :
    (markInnerStep canSub cands i d j).length = d.length := by
  unfold markInnerStep
  split_ifs <;> simp

/-- What one inner-loop iteration marks: cell `k` ends `true` exactly when it
already was, or this iteration's `j` equals `k`, `i ≠ k`, `k` is in range and
candidate `i` dominates candidate `k`. -/
theorem markInnerStep_getD (canSub : Nat → Nat → Bool) (cands : List Cand)
    (i : Nat) (d : List Bool) (j k : Nat) :
    ((markInnerStep canSub cands i d j).getD k false = true) ↔
      (d.getD k false = true ∨ (j = k ∧ i ≠ k ∧ k < d.length ∧
        dominates canSub (cands.getD i defaultCand)
          (cands.getD k defaultCand) = true)) := by
  unfold markInnerStep
  split_ifs with hij hdj hD
  · constructor
    · exact fun h => Or.inl h
    · rintro (h | ⟨hjk, hik, _⟩)
      · exact h
      · exact absurd (hij.trans hjk) hik
  · constructor
    · exact fun h => Or.inl h
    · rintro (h | ⟨hjk, _, hk, _⟩)
      · exact h
      · rw [← hjk] at hk ⊢
        rw [← getD_eq_of_lt d j hk]
        exact hdj
  · have hjlen : j < d.length := (getD_true_false d j (by
      revert hdj
      cases d.getD j true <;> simp)).1
    constructor
    · intro h
      by_cases hjk : j = k
      · refine Or.inr ⟨hjk, fun hik => hij (hik.trans hjk.symm),
          hjk ▸ hjlen, ?_⟩
        rw [← hjk]
        exact hD
      · rw [getD_set_ne d true hjk] at h
        exact Or.inl h
    · rintro (h | ⟨hjk, _, _, _⟩)
      · by_cases hjk : j = k
        · rw [← hjk, getD_set_self]
          exact decide_eq_true hjlen
        · rw [getD_set_ne d true hjk]
          exact h
      · rw [← hjk, getD_set_self]
        exact decide_eq_true hjlen
  · constructor
    · exact fun h => Or.inl h
    · rintro (h | ⟨hjk, _, _, hDk⟩)
      · exact h
      · rw [← hjk] at hDk
        exact absurd hDk hD

/-- What a run of inner-loop iterations marks. -/
theorem markInner_fold_getD (canSub : Nat → Nat → Bool) (cands : List Cand)
    (i : Nat) :
    ∀ (js : List Nat) (d : List Bool) (k : Nat),
      ((js.foldl (markInnerStep canSub cands i) d).getD k false = true) ↔
        (d.getD k false = true ∨ (k ∈ js ∧ i ≠ k ∧ k < d.length ∧
          dominates canSub (cands.getD i defaultCand)
            (cands.getD k defaultCand) = true))
  | [], d, k => by simp
  | j :: js, d, k => by
    rw [List.foldl_cons, markInner_fold_getD canSub cands i js _ k,
      markInnerStep_getD, markInnerStep_length]
    constructor
    · rintro ((h | ⟨rfl, hik, hk, hD⟩) | ⟨hmem, hik, hk, hD⟩)
      · exact Or.inl h
      · exact Or.inr ⟨List.mem_cons_self j js, hik, hk, hD⟩
      · exact Or.inr ⟨List.mem_cons_of_mem j hmem, hik, hk, hD⟩
    · rintro (h | ⟨hmem, hik, hk, hD⟩)
      · exact Or.inl (Or.inl h)
      · rcases List.mem_cons.mp hmem with rfl | hmem
        · exact Or.inl (Or.inr ⟨rfl, hik, hk, hD⟩)
        · exact Or.inr ⟨hmem, hik, hk, hD⟩

/-- The inner loop preserves the marking array's length. -/
theorem markInner_fold_length (canSub : Nat → Nat → Bool) (cands : List Cand)
    (i : Nat) :
    ∀ (js : List Nat) (d : List Bool),
      (js.foldl (markInnerStep canSub cands i) d).length = d.length
  | [], _ => rfl
  | j :: js, d => by
    rw [List.foldl_cons, markInner_fold_length canSub cands i js _,
      markInnerStep_length]

/-- What one outer-loop iteration (`markStep`) marks, for an in-range pivot
`i`: cell `k` ends `true` exactly when it already was, or `i` is itself
unmarked and dominates the in-range `k ≠ i`. -/
theorem markStep_getD (canSub : Nat → Nat → Bool) (cands : List Cand)
    (d : List Bool) (i k : Nat) (hi : i < d.length) :
    ((markStep canSub cands d i).getD k false = true) ↔
      (d.getD k false = true ∨ (d.getD i false = false ∧ k < cands.length ∧
        i ≠ k ∧ k < d.length ∧
        dominates canSub (cands.getD i defaultCand)
          (cands.getD k defaultCand) = true)) := by
  have hif := getD_eq_of_lt d i hi
  unfold markStep
  by_cases hdi : d.getD i false = true
  · rw [hif, hdi, if_pos rfl]
    simp
  · have hdi' : d.getD i false = false := by
      revert hdi
      cases d.getD i false <;> simp
    rw [hif, hdi', if_neg (by simp)]
    unfold markInner
    rw [markInner_fold_getD, List.mem_range]
    constructor
    · rintro (h | ⟨hk, hik, hkd, hD⟩)
      · exact Or.inl h
      · exact Or.inr ⟨rfl, hk, hik, hkd, hD⟩
    · rintro (h | ⟨_, hk, hik, hkd, hD⟩)
      · exact Or.inl h
      · exact Or.inr ⟨hk, hik, hkd, hD⟩

/-- `markStep` preserves the marking array's length. -/
theorem markStep_length (canSub : Nat → Nat → Bool) (cands : List Cand)
    (d : List Bool) (i : Nat) :
    (markStep canSub cands d i).length = d.length := by
  unfold markStep markInner
  split_ifs
  · rfl
  · exact markInner_fold_length canSub cands i _ d

/-- Marks are never erased by `markStep`. -/
theorem markStep_mono (canSub : Nat → Nat → Bool) (cands : List Cand)
    (d : List Bool) (i k : Nat) (h : d.getD k false = true) :
    (markStep canSub cands d i).getD k false = true := by
  unfold markStep markInner
  split_ifs
  · exact h
  · exact (markInner_fold_getD canSub cands i _ d k).mpr (Or.inl h)

/-- Marks are never erased by the outer loop. -/
theorem markFold_mono (canSub : Nat → Nat → Bool) (cands : List Cand) :
    ∀ (js : List Nat) (d : List Bool) (k : Nat),
      d.getD k false = true →
      ((js.foldl (markStep canSub cands) d).getD k false = true)
  | [], _, _, h => h
  | j :: js, d, k, h => by
    rw [List.foldl_cons]
    exact markFold_mono canSub cands js _ k (markStep_mono canSub cands d j k h)

/-- The outer loop preserves the marking array's length. -/
theorem markFold_length (canSub : Nat → Nat → Bool) (cands : List Cand) :
    ∀ (js : List Nat) (d : List Bool),
      (js.foldl (markStep canSub cands) d).length = d.length
  | [], _ => rfl
  | j :: js, d => by
    rw [List.foldl_cons, markFold_length canSub cands js _, markStep_length]

/-- Soundness of the outer loop: it only ever marks candidates that are
dominated by some other candidate in the spec's sense. -/
theorem markFold_sound (canSub : Nat → Nat → Bool) (cands : List Cand) :
    ∀ (js : List Nat) (d : List Bool),
      (∀ i ∈ js, i < cands.length) → d.length = cands.length →
      (∀ q, d.getD q false = true → specDominatedB canSub cands q = true) →
      ∀ k, ((js.foldl (markStep canSub cands) d).getD k false = true) →
        specDominatedB canSub cands k = true
  | [], _, _, _, hinv, _, hk => hinv _ hk
  | j :: js, d, hjs, hlen, hinv, k, hk => by
    rw [List.foldl_cons] at hk
    have hj : j < cands.length := hjs j (List.mem_cons_self j js)
    refine markFold_sound canSub cands js (markStep canSub cands d j)
      (fun i hi => hjs i (List.mem_cons_of_mem j hi))
      (by rw [markStep_length, hlen])
      (fun q hq => ?_) k hk
    rcases (markStep_getD canSub cands d j q (hlen ▸ hj)).mp hq with
      h | ⟨_, hq', hjq, _, hD⟩
    · exact hinv q h
    · unfold specDominatedB
      rw [List.any_eq_true]
      refine ⟨j, List.mem_range.mpr hj, ?_⟩
      rw [Bool.and_eq_true, Bool.not_eq_true', decide_eq_false_iff_not]
      exact ⟨hjq, hD⟩

/-- Under transitivity and mutual-domination-freedom, every dominated
candidate has a dominator that is itself dominated by nobody. -/
theorem spec_dominator_maximal (canSub : Nat → Nat → Bool) (cands : List Cand)
    (hT : ∀ i j l, i < cands.length → j < cands.length → l < cands.length →
      dominates canSub (cands.getD i defaultCand)
        (cands.getD j defaultCand) = true →
      dominates canSub (cands.getD j defaultCand)
        (cands.getD l defaultCand) = true →
      dominates canSub (cands.getD i defaultCand)
        (cands.getD l defaultCand) = true)
    (hA : ∀ i j, i < cands.length → j < cands.length → i ≠ j →
      ¬(dominates canSub (cands.getD i defaultCand)
          (cands.getD j defaultCand) = true ∧
        dominates canSub (cands.getD j defaultCand)
          (cands.getD i defaultCand) = true))
    (k : Nat) (hk : k < cands.length)
    (hdom : specDominatedB canSub cands k = true) :
    ∃ m, m < cands.length ∧ m ≠ k ∧
      dominates canSub (cands.getD m defaultCand)
        (cands.getD k defaultCand) = true ∧
      specDominatedB canSub cands m = false := by
  unfold specDominatedB at hdom
  rw [List.any_eq_true] at hdom
  obtain ⟨j0, hj0mem, hj0⟩ := hdom
  rw [List.mem_range] at hj0mem
  rw [Bool.and_eq_true, Bool.not_eq_true', decide_eq_false_iff_not] at hj0
  obtain ⟨hj0k, hj0D⟩ := hj0
  let r : Fin cands.length → Fin cands.length → Prop := fun a b =>
    dominates canSub (cands.getD a.val defaultCand)
      (cands.getD b.val defaultCand) = true ∧ a.val ≠ b.val
  haveI : IsTrans (Fin cands.length) r := by
    refine ⟨fun a b c hab hbc => ⟨hT a.val b.val c.val a.isLt b.isLt c.isLt
      hab.1 hbc.1, fun hac => ?_⟩⟩
    exact hA a.val b.val a.isLt b.isLt hab.2 ⟨hab.1, hac ▸ hbc.1⟩
  haveI : IsIrrefl (Fin cands.length) r := ⟨fun a ha => ha.2 rfl⟩
  have wf : WellFounded r := Finite.wellFounded_of_trans_of_irrefl r
  have hS : ({a : Fin cands.length |
      dominates canSub (cands.getD a.val defaultCand)
        (cands.getD k defaultCand) = true ∧ a.val ≠ k}).Nonempty :=
    ⟨⟨j0, hj0mem⟩, hj0D, hj0k⟩
  obtain ⟨m, hmS, hmin⟩ := wf.has_min _ hS
  refine ⟨m.val, m.isLt, hmS.2, hmS.1, ?_⟩
  by_contra hspec
  have hspec' : specDominatedB canSub cands m.val = true := by
    revert hspec
    cases specDominatedB canSub cands m.val <;> simp
  unfold specDominatedB at hspec'
  rw [List.any_eq_true] at hspec'
  obtain ⟨j, hjmem, hj⟩ := hspec'
  rw [List.mem_range] at hjmem
  rw [Bool.and_eq_true, Bool.not_eq_true', decide_eq_false_iff_not] at hj
  obtain ⟨hjm, hjD⟩ := hj
  have hjk : j ≠ k := by
    intro hjk
    subst hjk
    exact hA j m.val hjmem m.isLt hjm ⟨hjD, hmS.1⟩
  exact hmin ⟨j, hjmem⟩
    ⟨hT j m.val k hjmem m.isLt hk hjD hmS.1, hjk⟩ ⟨hjD, hjm⟩

/-- Completeness of the outer loop: once the pivot list still contains an
undominated dominator `m` of `k`, cell `k` ends marked. -/
theorem markFold_complete (canSub : Nat → Nat → Bool) (cands : List Cand) :
    ∀ (js : List Nat) (d : List Bool) (k m : Nat),
      d.length = cands.length → (∀ i ∈ js, i < cands.length) →
      (∀ q, d.getD q false = true → specDominatedB canSub cands q = true) →
      m ∈ js → specDominatedB canSub cands m = false → m ≠ k →
      k < cands.length →
      dominates canSub (cands.getD m defaultCand)
        (cands.getD k defaultCand) = true →
      ((js.foldl (markStep canSub cands) d).getD k false = true)
  | [], _, _, _, _, _, _, hmem, _, _, _, _ => absurd hmem (List.not_mem_nil _)
  | j :: js, d, k, m, hlen, hjs, hinv, hmem, hm, hmk, hk, hD => by
    rw [List.foldl_cons]
    have hj : j < cands.length := hjs j (List.mem_cons_self j js)
    rcases List.mem_cons.mp hmem with rfl | hmem'
    · have hdm : d.getD m false = false := by
        rcases hq : d.getD m false with _ | _
        · rfl
        · rw [hinv m hq] at hm
          cases hm
      have hmarked : (markStep canSub cands d m).getD k false = true := by
        rw [markStep_getD canSub cands d m k (hlen ▸ hj)]
        exact Or.inr ⟨hdm, hk, hmk, hlen ▸ hk, hD⟩
      exact markFold_mono canSub cands js _ k hmarked
    · refine markFold_complete canSub cands js (markStep canSub cands d j)
        k m (by rw [markStep_length, hlen])
        (fun i hi => hjs i (List.mem_cons_of_mem j hi))
        (fun q hq => ?_) hmem' hm hmk hk hD
      rcases (markStep_getD canSub cands d j q (hlen ▸ hj)).mp hq with
        h | ⟨_, hq', hjq, _, hDq⟩
      · exact hinv q h
      · unfold specDominatedB
        rw [List.any_eq_true]
        refine ⟨j, List.mem_range.mpr hj, ?_⟩
        rw [Bool.and_eq_true, Bool.not_eq_true', decide_eq_false_iff_not]
        exact ⟨hjq, hDq⟩

/-- Reading a `replicate false` array always yields `false`. -/
theorem getD_replicate_false (n q : Nat) :
    (List.replicate n false).getD q false = false := by
  induction n generalizing q with
  | zero => simp
  | succ n ih =>
    cases q with
    | zero => simp [List.replicate]
    | succ q => simpa [List.replicate] using ih q

/-- `is_dominated` has one cell per candidate. -/
theorem markAll_length (canSub : Nat → Nat → Bool) (cands : List Cand) :
    (markAll canSub cands).length = cands.length := by
  unfold markAll
  rw [markFold_length, List.length_replicate]

/-- Under transitivity and mutual-domination-freedom, the code's sequential
`is_dominated` marking coincides with the spec's existential domination
predicate on every candidate index. -/
theorem markAll_eq_specDominatedB (canSub : Nat → Nat → Bool)
    (cands : List Cand)
    (hT : ∀ i j l, i < cands.length → j < cands.length → l < cands.length →
      dominates canSub (cands.getD i defaultCand)
        (cands.getD j defaultCand) = true →
      dominates canSub (cands.getD j defaultCand)
        (cands.getD l defaultCand) = true →
      dominates canSub (cands.getD i defaultCand)
        (cands.getD l defaultCand) = true)
    (hA : ∀ i j, i < cands.length → j < cands.length → i ≠ j →
      ¬(dominates canSub (cands.getD i defaultCand)
          (cands.getD j defaultCand) = true ∧
        dominates canSub (cands.getD j defaultCand)
          (cands.getD i defaultCand) = true))
    (k : Nat) (hk : k < cands.length) :
    (markAll canSub cands).getD k false = specDominatedB canSub cands k := by
  rcases hs : specDominatedB canSub cands k with _ | _
  · rcases hmk : (markAll canSub cands).getD k false with _ | _
    · rfl
    · unfold markAll at hmk
      rw [markFold_sound canSub cands (List.range cands.length) _
        (fun i hi => List.mem_range.mp hi) (List.length_replicate _ _)
        (fun q hq => by rw [getD_replicate_false] at hq; cases hq) k hmk]
        at hs
      cases hs
  · obtain ⟨m, hmlt, hmk', hmD, hmspec⟩ :=
      spec_dominator_maximal canSub cands hT hA k hk hs
    unfold markAll
    exact markFold_complete canSub cands (List.range cands.length) _ k m
      (List.length_replicate _ _) (fun i hi => List.mem_range.mp hi)
      (fun q hq => by rw [getD_replicate_false] at hq; cases hq)
      (List.mem_range.mpr hmlt) hmspec hmk' hk hmD

/-- Filtering a zip by its Boolean component equals filtering indices by the
marking array. -/
theorem survivors_zip_eq {α : Type} (dflt : α) :
    ∀ (xs : List α) (ms : List Bool), ms.length = xs.length →
    (xs.zip ms).filterMap (fun p => if p.2 then none else some p.1) =
      ((List.range xs.length).filter (fun i => !(ms.getD i false))).map
        (fun i => xs.getD i dflt)
  | [], ms, _ => by simp
  | x :: xs, [], h => by simp at h
  | x :: xs, b :: ms, h => by
    have ih := survivors_zip_eq dflt xs ms (by simpa using h)
    have hcomp1 : ((List.range xs.length).map Nat.succ).filter
        (fun i => !((b :: ms).getD i false)) =
        ((List.range xs.length).filter (fun i => !(ms.getD i false))).map
          Nat.succ := by
      rw [List.filter_map]
      simp only [Function.comp_def, List.getD_cons_succ]
    have hcomp2 : ∀ l : List Nat,
        (l.map Nat.succ).map (fun i => (x :: xs).getD i dflt) =
          l.map (fun i => xs.getD i dflt) := by
      intro l
      rw [List.map_map]
      simp only [Function.comp_def, List.getD_cons_succ]
    cases b with
    | false =>
      simp [List.range_succ_eq_map, ih]
      simp only [List.getD_eq_getElem?_getD] at hcomp1 hcomp2
      rw [hcomp1, hcomp2]
    | true =>
      simp [List.range_succ_eq_map, ih]
      simp only [List.getD_eq_getElem?_getD] at hcomp1 hcomp2
      rw [hcomp1, hcomp2]

/-- Under transitivity and mutual-domination-freedom, the code's survivor
list equals the spec's survivor list. -/
theorem codeSurvivors_eq_specSurvivors (canSub : Nat → Nat → Bool)
    (cands : List Cand)
    (hT : ∀ i j l, i < cands.length → j < cands.length → l < cands.length →
      dominates canSub (cands.getD i defaultCand)
        (cands.getD j defaultCand) = true →
      dominates canSub (cands.getD j defaultCand)
        (cands.getD l defaultCand) = true →
      dominates canSub (cands.getD i defaultCand)
        (cands.getD l defaultCand) = true)
    (hA : ∀ i j, i < cands.length → j < cands.length → i ≠ j →
      ¬(dominates canSub (cands.getD i defaultCand)
          (cands.getD j defaultCand) = true ∧
        dominates canSub (cands.getD j defaultCand)
          (cands.getD i defaultCand) = true)) :
    codeSurvivors canSub cands = specSurvivors canSub cands := by
  unfold codeSurvivors specSurvivors
  rw [survivors_zip_eq defaultCand cands (markAll canSub cands)
    (markAll_length canSub cands)]
  congr 1
  apply List.filter_congr
  intro i hi
  rw [List.mem_range] at hi
  rw [markAll_eq_specDominatedB canSub cands hT hA i hi]

/-- C3 (amended): the ambiguous-resolution postprocess removes candidates by
a sequential elimination pass in which an already-eliminated candidate
eliminates no others; whenever the induced domination relation on the
collected candidates is transitive and no two distinct candidates dominate
each other mutually, this removes exactly the candidates dominated by some
other candidate, and the postprocess answers NotFound for zero collected
candidates, returns the unique survivor, and raises the
ambiguous-resolution error when several survive. -/
theorem ambiguous_postprocess_elimination (canSub : Nat → Nat → Bool)
    (cands : List Cand)
    (hT : ∀ i j l, i < cands.length → j < cands.length → l < cands.length →
      dominates canSub (cands.getD i defaultCand)
        (cands.getD j defaultCand) = true →
      dominates canSub (cands.getD j defaultCand)
        (cands.getD l defaultCand) = true →
      dominates canSub (cands.getD i defaultCand)
        (cands.getD l defaultCand) = true)
    (hA : ∀ i j, i < cands.length → j < cands.length → i ≠ j →
      ¬(dominates canSub (cands.getD i defaultCand)
          (cands.getD j defaultCand) = true ∧
        dominates canSub (cands.getD j defaultCand)
          (cands.getD i defaultCand) = true)) :
    codeSurvivors canSub cands = specSurvivors canSub cands
    ∧ ambiguousPostprocess canSub cands =
        (match specSurvivors canSub cands with
          | [] => .ok none
          | [c] => .ok (some c)
          | _ :: _ :: _ => .error ()) := by
  by_cases hc : cands.length = 0
  · have hnil : cands = [] := List.length_eq_zero.mp hc
    subst hnil
    exact ⟨rfl, rfl⟩
  · have hsurv := codeSurvivors_eq_specSurvivors canSub cands hT hA
    refine ⟨hsurv, ?_⟩
    unfold ambiguousPostprocess chooseBestCandidate
    rw [if_neg hc, hsurv]
    cases specSurvivors canSub cands with
    | nil => rfl
    | cons c rest =>
      cases rest with
      | nil => rfl
      | cons c' rest' => rfl

/-- The candidate list for the C3 amended-claim witness: the second
candidate strictly dominates the first under the oracle `b ≤ a`. -/
def candsW : List Cand := [⟨0, 0⟩, ⟨1, 0⟩]

/-- The oracle for the C3 amended-claim witness. -/
def canSubW : Nat → Nat → Bool := fun a b => decide (b ≤ a)

/-- Witness for the amended C3: the sequential elimination removes exactly
the dominated first candidate and the unique survivor is returned. -/
theorem ambiguous_postprocess_elimination_witness :
    codeSurvivors canSubW candsW = [⟨1, 0⟩]
    ∧ ambiguousPostprocess canSubW candsW = .ok (some ⟨1, 0⟩) := by
  have h := ambiguous_postprocess_elimination canSubW candsW
    (by
      intro i j l hi hj hl h1 h2
      simp only [candsW, List.length_cons, List.length_nil] at hi hj hl
      interval_cases i <;> interval_cases j <;> interval_cases l <;>
        revert h1 h2 <;> decide)
    (by
      intro i j hi hj hij
      simp only [candsW, List.length_cons, List.length_nil] at hi hj
      interval_cases i <;> interval_cases j <;> revert hij <;> decide)
  exact ⟨h.1.trans (by rfl), h.2.trans (by rfl)⟩

end Grundzeug
